import Mathlib

/-!
Verification development for the g2scanner repository.

The repository holds three Python sources:
  * src/g2scanner.py                 - the single-threaded edge-detecting variant
  * src/legacy/g2scanner_threaded.py - the threaded scheduler variant (fixed scan column)
  * src/legacy/g2scanner_threaded2.py- the threaded variant with per-frame calibration

We embed the scan engine (marker search, bin-boundary computation, bit decode),
the luminance formulas of each variant, the worker cycle of the threaded2
variant (its exception/cleanup control flow), and the buffer-pool scheduler of
the threaded variant as a lock-granularity transition system.

Machine arithmetic: pixel channels are Nat (uint8 values, never overflowing in
the sums involved, which stay below 2^16); floating-point computations
(linspace, rounding, averages) are modelled exactly over the rationals.
-/

/-- One pixel in bgr channel order, as delivered by the camera (format given as
bgr in every capture call of the sources). -/
structure Pixel where
  b : Nat
  g : Nat
  r : Nat
deriving Repr, DecidableEq

/-- A captured frame: the pixel grid of a PiRGBArray, with its row and column
counts. `px` is total; every access in the sources stays inside the grid and
the theorems carry the bounds where it matters. -/
structure Frame where
  rows : Nat
  cols : Nat
  px : Nat → Nat → Pixel

/-! ## g2scanner.py : the scan engine of G2Scanner.analyse -/

/-- BLACK_LUM_MAX of g2scanner.py (line 42). -/
def BLACK_LUM_MAX : Nat := 100

/-- Line 40, `temp_lums = np.sum(arr[:,8,:],1)`: the per-row luminance used by
calibration is the unweighted channel sum at fixed column 8. -/
def temp_lums (f : Frame) (i : Nat) : Nat :=
  (f.px i 8).b + (f.px i 8).g + (f.px i 8).r

/-- Line 75, `lums = np.sum(arr[:,scan_column,:],1)`: the per-row luminance used
by decode is the unweighted channel sum at the edge-selected column. -/
def lums (f : Frame) (c i : Nat) : Nat :=
  (f.px i c).b + (f.px i c).g + (f.px i c).r

/-- Lines 44-47: `for i in range(ROWS): if temp_lums[i] < BLACK_LUM_MAX:
top_bar_pixel = i; break` - the first dark row scanning downward from row 0. -/
def top_bar_pixel (f : Frame) : Option Nat :=
  (List.range f.rows).find? (fun i => temp_lums f i < BLACK_LUM_MAX)

/-- Lines 49-52: the same scan upward from the last row (`range(ROWS-1,-1,-1)`). -/
def bottom_bar_pixel (f : Frame) : Option Nat :=
  (List.range f.rows).reverse.find? (fun i => temp_lums f i < BLACK_LUM_MAX)

/-- Lines 35-56 of analyse: both marker rows, or failure (the
`top_bar_pixel == None or bottom_bar_pixel == None` early return, the
MarkersNotFound condition of the spec). -/
def calibrateMarkers (f : Frame) : Option (Nat × Nat) :=
  match top_bar_pixel f, bottom_bar_pixel f with
  | some t, some b => some (t, b)
  | _, _ => none

/-- Python 2 `round`: round half away from zero. Every value rounded in the
sources is a nonnegative row coordinate, where this is `Int.floor (x + 1/2)`. -/
def pyRound (x : ℚ) : ℤ :=
  if 0 ≤ x then ⌊x + 1 / 2⌋ else ⌈x - 1 / 2⌉

/-- Line 58, `np.linspace(top_bar_pixel, bottom_bar_pixel, 21)`: 21 evenly
spaced values from `t` to `b` inclusive, modelled exactly. -/
def linspace21 (t b : ℚ) : List ℚ :=
  (List.range 21).map (fun i : Nat => t + (b - t) * (i : ℚ) / 20)

/-- Lines 58-59: the bin boundaries, each `int(round(x))` of a linspace value.
All values lie between the marker rows, hence are nonnegative; `toNat` is the
identity on them. -/
def bin_pixels (t b : Nat) : List Nat :=
  (linspace21 t b).map (fun x => (pyRound x).toNat)

/-- Lines 70-73: the decode scan column derived from the strongest edge column
(`max_edge`, the output of the external cv2.Canny/argmax collaborators). -/
def scan_column_of (maxEdge : Nat) : Nat :=
  if 9 < maxEdge then maxEdge - 4 else maxEdge + 4

/-- Lines 77-84, the decode loop: for each adjacent boundary pair `(tp, bp)`,
the bit is 1 when `np.sum(lums[tp:bp]/(bp-tp)) < 2*BLACK_LUM_MAX`, else 0.
The Python slice `lums[tp:bp]` clips at ROWS, so the row range is
`[min tp rows, min bp rows)`; the divisor is `bp - tp` itself, exactly as in
the source (not the clipped length). Division is exact rational division. -/
def bin_bits (f : Frame) (c : Nat) (bins : List Nat) : List Nat :=
  (List.range (bins.length - 1)).map (fun i =>
    let tp := bins.getD i 0
    let bp := bins.getD (i + 1) 0
    if ((List.range' (min tp f.rows) (min bp f.rows - min tp f.rows)).map
          (fun r => (lums f c r : ℚ) / ((bp : ℚ) - (tp : ℚ)))).sum
        < 2 * BLACK_LUM_MAX then 1 else 0)

/-- G2Scanner.analyse (lines 21-99): appends a timestamp and increments
`num_scans` first (lines 25-26), then calibrates; on marker failure it prints
and returns with no bit pattern (lines 54-56); otherwise it selects the scan
column from the edge detector result `maxEdge` and decodes. The state carried
here is `num_scans`; `scan_times` grows in step with it. Diagnostic image
output (lines 87-99) is an external side effect and produces no data. -/
def analyse (numScans maxEdge : Nat) (f : Frame) : Nat × Option (List Nat) :=
  let numScans := numScans + 1
  match calibrateMarkers f with
  | none => (numScans, none)
  | some (t, b) =>
      (numScans, some (bin_bits f (scan_column_of maxEdge) (bin_pixels t b)))

/-! ## Helper lemmas: first-match search over a range -/

lemma find?_append_helper {α : Type} (p : α → Bool) (l l' : List α) :
    (l ++ l').find? p =
      match l.find? p with
      | some a => some a
      | none => l'.find? p := by
  induction l with
  | nil => simp
  | cons a as ih =>
      by_cases h : p a
      · simp [List.find?_cons, h]
      · simp only [List.cons_append, List.find?_cons] at *
        simp [h, ih]

lemma find?_range_none (p : Nat → Bool) (n : Nat) :
    (List.range n).find? p = none ↔ ∀ i < n, ¬ p i := by
  rw [List.find?_eq_none]
  constructor
  · intro h i hi
    exact fun hp => h i (List.mem_range.mpr hi) hp
  · intro h x hx
    exact fun hp => h x (List.mem_range.mp hx) hp

lemma find?_range_some (p : Nat → Bool) (n m : Nat) :
    (List.range n).find? p = some m ↔
      m < n ∧ p m ∧ ∀ k < m, ¬ p k := by
  induction n generalizing m with
  | zero => simp
  | succ n ih =>
      rw [List.range_succ, find?_append_helper]
      cases hfind : (List.range n).find? p with
      | some a =>
          simp only []
          constructor
          · intro h
            obtain rfl : a = m := by injection h
            obtain ⟨hm, hpm, hmin⟩ := (ih a).mp hfind
            exact ⟨Nat.lt_succ_of_lt hm, hpm, hmin⟩
          · rintro ⟨hm, hpm, hmin⟩
            obtain ⟨ha, hpa, hamin⟩ := (ih a).mp hfind
            congr
            rcases Nat.lt_trichotomy a m with h1 | h1 | h1
            · exact absurd hpa (hmin a h1)
            · exact h1
            · exact absurd hpm (hamin m h1)
      | none =>
          have hnone := (find?_range_none p n).mp hfind
          simp only [List.find?_cons, List.find?_nil]
          by_cases hp : p n
          · simp only [hp]
            constructor
            · intro h
              obtain rfl : n = m := by injection h
              exact ⟨Nat.lt_succ_self n, hp, hnone⟩
            · rintro ⟨hm, hpm, hmin⟩
              have : m = n := by
                rcases Nat.lt_succ_iff_lt_or_eq.mp hm with h1 | h1
                · exact absurd hpm (hnone m h1)
                · exact h1
              simp [this]
          · simp only [hp]
            constructor
            · intro h; exact absurd h (by simp)
            · rintro ⟨hm, hpm, hmin⟩
              rcases Nat.lt_succ_iff_lt_or_eq.mp hm with h1 | h1
              · exact absurd hpm (hnone m h1)
              · subst h1; exact absurd hpm (by simp [hp])

lemma find?_range_reverse_none (p : Nat → Bool) (n : Nat) :
    (List.range n).reverse.find? p = none ↔ ∀ i < n, ¬ p i := by
  rw [List.find?_eq_none]
  constructor
  · intro h i hi
    exact fun hp => h i (by simp [List.mem_reverse, List.mem_range, hi]) hp
  · intro h x hx
    exact fun hp => h x (by simpa [List.mem_reverse, List.mem_range] using hx) hp

lemma find?_range_reverse_some (p : Nat → Bool) (n m : Nat) :
    (List.range n).reverse.find? p = some m ↔
      m < n ∧ p m ∧ ∀ k, m < k → k < n → ¬ p k := by
  induction n with
  | zero => simp
  | succ n ih =>
      rw [List.range_succ, List.reverse_append]
      simp only [List.reverse_singleton, List.singleton_append, List.find?_cons]
      by_cases hp : p n
      · simp only [hp]
        constructor
        · intro h
          obtain rfl : n = m := by injection h
          exact ⟨Nat.lt_succ_self n, hp, fun k hk1 hk2 =>
            absurd hk2 (Nat.not_lt.mpr hk1)⟩
        · rintro ⟨hm, hpm, hmax⟩
          have : m = n := by
            rcases Nat.lt_succ_iff_lt_or_eq.mp hm with h1 | h1
            · exact absurd hp (hmax n h1 (Nat.lt_succ_self n))
            · exact h1
          simp [this]
      · simp only [hp]
        rw [ih]
        constructor
        · rintro ⟨hm, hpm, hmax⟩
          refine ⟨Nat.lt_succ_of_lt hm, hpm, fun k hk1 hk2 => ?_⟩
          rcases Nat.lt_succ_iff_lt_or_eq.mp hk2 with h1 | h1
          · exact hmax k hk1 h1
          · subst h1; simp [hp]
        · rintro ⟨hm, hpm, hmax⟩
          have hmn : m ≠ n := by
            rintro rfl; exact absurd hpm (by simp [hp])
          refine ⟨Nat.lt_of_le_of_ne (Nat.lt_succ_iff.mp hm) hmn, hpm,
            fun k hk1 hk2 => hmax k hk1 (Nat.lt_succ_of_lt hk2)⟩

/-! ## Marker-search characterization (shared by several claims) -/

lemma top_bar_pixel_none (f : Frame) :
    top_bar_pixel f = none ↔ ∀ i < f.rows, BLACK_LUM_MAX ≤ temp_lums f i := by
  unfold top_bar_pixel
  rw [find?_range_none]
  simp [Nat.not_lt]

lemma bottom_bar_pixel_none (f : Frame) :
    bottom_bar_pixel f = none ↔ ∀ i < f.rows, BLACK_LUM_MAX ≤ temp_lums f i := by
  unfold bottom_bar_pixel
  rw [find?_range_reverse_none]
  simp [Nat.not_lt]

lemma top_bar_pixel_some (f : Frame) (t : Nat) :
    top_bar_pixel f = some t ↔
      t < f.rows ∧ temp_lums f t < BLACK_LUM_MAX ∧
        ∀ k < t, BLACK_LUM_MAX ≤ temp_lums f k := by
  unfold top_bar_pixel
  rw [find?_range_some]
  simp [Nat.not_lt]

lemma bottom_bar_pixel_some (f : Frame) (b : Nat) :
    bottom_bar_pixel f = some b ↔
      b < f.rows ∧ temp_lums f b < BLACK_LUM_MAX ∧
        ∀ k, b < k → k < f.rows → BLACK_LUM_MAX ≤ temp_lums f k := by
  unfold bottom_bar_pixel
  rw [find?_range_reverse_some]
  simp [Nat.not_lt]

lemma calibrateMarkers_some (f : Frame) (t b : Nat)
    (h : calibrateMarkers f = some (t, b)) :
    top_bar_pixel f = some t ∧ bottom_bar_pixel f = some b := by
  unfold calibrateMarkers at h
  cases ht : top_bar_pixel f with
  | none => rw [ht] at h; exact absurd h (by simp)
  | some t' =>
      cases hb : bottom_bar_pixel f with
      | none => rw [ht, hb] at h; exact absurd h (by simp)
      | some b' =>
          rw [ht, hb] at h
          simp only [Option.some.injEq, Prod.mk.injEq] at h
          obtain ⟨rfl, rfl⟩ := h
          exact ⟨rfl, rfl⟩

/-- The markers delimit a nonempty span inside the frame: top at or above
bottom, both inside the row range. -/
lemma markers_le (f : Frame) (t b : Nat)
    (h : calibrateMarkers f = some (t, b)) : t ≤ b ∧ b < f.rows := by
  obtain ⟨ht, hb⟩ := calibrateMarkers_some f t b h
  obtain ⟨htr, htlum, -⟩ := (top_bar_pixel_some f t).mp ht
  obtain ⟨hbr, hblum, hbmax⟩ := (bottom_bar_pixel_some f b).mp hb
  refine ⟨?_, hbr⟩
  by_contra hcon
  exact absurd htlum (Nat.not_lt.mpr (hbmax t (Nat.lt_of_not_le hcon) htr))

/-! ## Rounding and boundary arithmetic for bin_pixels -/

lemma pyRound_of_nonneg {x : ℚ} (h : 0 ≤ x) : pyRound x = ⌊x + 1 / 2⌋ := by
  simp [pyRound, h]

lemma pyRound_natCast (n : Nat) : pyRound (n : ℚ) = (n : ℤ) := by
  rw [pyRound_of_nonneg (by positivity)]
  rw [add_comm, Int.floor_add_nat]
  norm_num

lemma pyRound_mono {x y : ℚ} (hx : 0 ≤ x) (hxy : x ≤ y) :
    pyRound x ≤ pyRound y := by
  rw [pyRound_of_nonneg hx, pyRound_of_nonneg (le_trans hx hxy)]
  exact Int.floor_le_floor (by linarith)

lemma pyRound_bounds {x : ℚ} (t b : Nat) (h1 : (t : ℚ) ≤ x) (h2 : x ≤ (b : ℚ)) :
    (t : ℤ) ≤ pyRound x ∧ pyRound x ≤ (b : ℤ) := by
  have hx : (0 : ℚ) ≤ x := le_trans (by positivity) h1
  constructor
  · calc (t : ℤ) = pyRound (t : ℚ) := (pyRound_natCast t).symm
      _ ≤ pyRound x := pyRound_mono (by positivity) h1
  · calc pyRound x ≤ pyRound (b : ℚ) := pyRound_mono hx h2
      _ = (b : ℤ) := pyRound_natCast b

lemma linspace21_val_lb (t b : Nat) (htb : t ≤ b) (i : Nat) :
    (t : ℚ) ≤ (t : ℚ) + ((b : ℚ) - t) * (i : ℚ) / 20 := by
  have hbt : (0 : ℚ) ≤ (b : ℚ) - t := by
    have := (Nat.cast_le (α := ℚ)).mpr htb
    linarith
  have h0 : (0 : ℚ) ≤ ((b : ℚ) - t) * (i : ℚ) / 20 := by
    apply div_nonneg (mul_nonneg hbt (by positivity)) (by norm_num)
  linarith

lemma linspace21_val_ub (t b : Nat) (htb : t ≤ b) (i : Nat) (hi : i ≤ 20) :
    (t : ℚ) + ((b : ℚ) - t) * (i : ℚ) / 20 ≤ (b : ℚ) := by
  have hbt : (0 : ℚ) ≤ (b : ℚ) - t := by
    have := (Nat.cast_le (α := ℚ)).mpr htb
    linarith
  have hi' : (i : ℚ) ≤ 20 := by exact_mod_cast hi
  have h20 : ((b : ℚ) - t) * (i : ℚ) ≤ ((b : ℚ) - t) * 20 :=
    mul_le_mul_of_nonneg_left hi' hbt
  linarith

lemma linspace21_val_mono (t b : Nat) (htb : t ≤ b) {i j : Nat} (hij : i ≤ j) :
    (t : ℚ) + ((b : ℚ) - t) * (i : ℚ) / 20 ≤
      (t : ℚ) + ((b : ℚ) - t) * (j : ℚ) / 20 := by
  have hbt : (0 : ℚ) ≤ (b : ℚ) - t := by
    have := (Nat.cast_le (α := ℚ)).mpr htb
    linarith
  have hij' : (i : ℚ) ≤ (j : ℚ) := by exact_mod_cast hij
  have := mul_le_mul_of_nonneg_left hij' hbt
  linarith

lemma bin_pixels_length (t b : Nat) : (bin_pixels t b).length = 21 := by
  rw [bin_pixels, linspace21, List.length_map, List.length_map, List.length_range]

lemma bin_pixels_getD (t b i : Nat) (hi : i < 21) :
    (bin_pixels t b).getD i 0 =
      (pyRound ((t : ℚ) + ((b : ℚ) - t) * (i : ℚ) / 20)).toNat := by
  rw [bin_pixels, linspace21, List.getD_eq_getElem?_getD, List.getElem?_map,
    List.getElem?_map, List.getElem?_range hi]
  rfl

lemma bin_pixels_first (t b : Nat) : (bin_pixels t b).getD 0 0 = t := by
  rw [bin_pixels_getD t b 0 (by norm_num)]
  norm_num [pyRound_natCast]

lemma bin_pixels_last (t b : Nat) : (bin_pixels t b).getD 20 0 = b := by
  rw [bin_pixels_getD t b 20 (by norm_num)]
  have h : (t : ℚ) + ((b : ℚ) - t) * ((20 : Nat) : ℚ) / 20 = (b : ℚ) := by
    push_cast
    ring
  rw [h, pyRound_natCast]
  simp

lemma bin_pixels_mem_bounds (t b : Nat) (htb : t ≤ b) :
    ∀ x ∈ bin_pixels t b, t ≤ x ∧ x ≤ b := by
  intro x hx
  rw [bin_pixels] at hx
  obtain ⟨q, hq, rfl⟩ := List.mem_map.mp hx
  rw [linspace21] at hq
  obtain ⟨i, hi, rfl⟩ := List.mem_map.mp hq
  have hi' : i ≤ 20 := Nat.lt_succ_iff.mp (List.mem_range.mp hi)
  have hlb := linspace21_val_lb t b htb i
  have hub := linspace21_val_ub t b htb i hi'
  obtain ⟨h1, h2⟩ := pyRound_bounds t b hlb hub
  omega

lemma bin_pixels_chain (t b : Nat) (htb : t ≤ b) :
    List.Chain' (fun a c : Nat => a ≤ c) (bin_pixels t b) := by
  rw [bin_pixels, linspace21, List.chain'_map, List.chain'_map]
  apply List.Pairwise.chain'
  apply (List.pairwise_lt_range 21).imp
  intro i j hij
  have hmono := linspace21_val_mono t b htb (Nat.le_of_lt hij)
  have hlb := linspace21_val_lb t b htb i
  have hr := pyRound_mono (le_trans (by positivity) hlb) hmono
  omega

/-! ## Concrete frames used by witnesses and counterexamples -/

/-- A frame with no dark pixel anywhere: every channel sum is 600, far above
BLACK_LUM_MAX, so neither marker can be found. -/
def brightFrame : Frame := ⟨3, 16, fun _ _ => ⟨200, 200, 200⟩⟩

/-- A frame that is entirely dark: markers are found at rows 0 and 40, a span
wide enough for strictly increasing boundaries. -/
def darkFrame : Frame := ⟨41, 16, fun _ _ => ⟨10, 10, 10⟩⟩

/-- A frame whose only dark rows are 5 and 6: the markers end up one row
apart, the degenerate case of the spec. -/
def degFrame : Frame :=
  ⟨8, 16, fun i _ => if i = 5 ∨ i = 6 then ⟨10, 10, 10⟩ else ⟨200, 200, 200⟩⟩

/-! ## Entry access into bin_bits -/

lemma bin_bits_getD (f : Frame) (c : Nat) (bins : List Nat) (i : Nat)
    (hi : i < bins.length - 1) :
    (bin_bits f c bins).getD i 2 =
      if ((List.range' (min (bins.getD i 0) f.rows)
            (min (bins.getD (i + 1) 0) f.rows - min (bins.getD i 0) f.rows)).map
            (fun r => (lums f c r : ℚ) /
              ((bins.getD (i + 1) 0 : ℚ) - (bins.getD i 0 : ℚ)))).sum
          < 2 * BLACK_LUM_MAX then 1 else 0 := by
  rw [bin_bits, List.getD_eq_getElem?_getD, List.getElem?_map, List.getElem?_range hi]
  rfl

lemma sum_map_div (l : List Nat) (g : Nat → ℚ) (d : ℚ) :
    (l.map (fun r => g r / d)).sum = (l.map g).sum / d := by
  induction l with
  | nil => simp
  | cons a as ih => simp [ih, add_div]

/-- The iff characterization missing from calibrateMarkers_some: failure is
exactly the absence of any dark row. -/
lemma calibrateMarkers_none_iff (f : Frame) :
    calibrateMarkers f = none ↔ ∀ i < f.rows, BLACK_LUM_MAX ≤ temp_lums f i := by
  unfold calibrateMarkers
  cases ht : top_bar_pixel f with
  | none =>
      have hall := (top_bar_pixel_none f).mp ht
      cases hb : bottom_bar_pixel f <;> exact iff_of_true rfl hall
  | some t =>
      obtain ⟨htr, htl, -⟩ := (top_bar_pixel_some f t).mp ht
      have hne : ¬ ∀ i < f.rows, BLACK_LUM_MAX ≤ temp_lums f i := by
        intro hall
        exact absurd htl (Nat.not_lt.mpr (hall t htr))
      cases hb : bottom_bar_pixel f with
      | none => exact absurd ((bottom_bar_pixel_none f).mp hb) hne
      | some b => simp [hne]

/-! ## Claim theorems for the scan engine -/

/-- C6: calibration finds the top marker as the first row from the top whose
scan-column luminance is strictly below BLACK_LUM_MAX, the bottom marker as
the first such row from the bottom, and fails (returns without a layout, the
MarkersNotFound case) exactly when no row is below the threshold in the
respective scan direction - which, both scans testing the same predicate,
is exactly when no row at all is dark. -/
theorem c6_marker_search (f : Frame) :
    (calibrateMarkers f = none ↔ ∀ i < f.rows, BLACK_LUM_MAX ≤ temp_lums f i) ∧
    (∀ t b, calibrateMarkers f = some (t, b) →
      (t < f.rows ∧ temp_lums f t < BLACK_LUM_MAX ∧
        ∀ k < t, BLACK_LUM_MAX ≤ temp_lums f k) ∧
      (b < f.rows ∧ temp_lums f b < BLACK_LUM_MAX ∧
        ∀ k, b < k → k < f.rows → BLACK_LUM_MAX ≤ temp_lums f k)) := by
  refine ⟨calibrateMarkers_none_iff f, fun t b h => ?_⟩
  obtain ⟨ht, hb⟩ := calibrateMarkers_some f t b h
  exact ⟨(top_bar_pixel_some f t).mp ht, (bottom_bar_pixel_some f b).mp hb⟩

/-- Witness for C6 at a concrete frame with no dark pixel. -/
theorem c6_marker_search_witness : calibrateMarkers brightFrame = none :=
  (c6_marker_search brightFrame).1.mpr (by decide)

/-- C4 counterexample: on a frame whose markers are rows 5 and 6, calibration
succeeds but the rounded boundaries are not strictly increasing (rows 5 and 6
cannot host 21 distinct boundaries; no nudge is applied in the code). -/
theorem c4_strict_counterexample :
    calibrateMarkers degFrame = some (5, 6) ∧
    ¬ List.Chain' (fun a c : Nat => a < c) (bin_pixels 5 6) := by
  have hlen : (bin_pixels 5 6).length = 21 := bin_pixels_length 5 6
  have h0 : (bin_pixels 5 6).getD 0 0 = 5 := bin_pixels_first 5 6
  have h1 : (bin_pixels 5 6).getD 1 0 = 5 := by
    rw [bin_pixels_getD 5 6 1 (by norm_num)]
    have hx : pyRound (((5 : Nat) : ℚ) + (((6 : Nat) : ℚ) - ((5 : Nat) : ℚ))
        * ((1 : Nat) : ℚ) / 20) = 5 := by
      rw [pyRound_of_nonneg (by push_cast; norm_num)]
      push_cast
      norm_num
    rw [hx]
    rfl
  refine ⟨by decide, fun hchain => ?_⟩
  rw [List.chain'_iff_get] at hchain
  have hlt := hchain 0 (by rw [hlen]; norm_num)
  rw [List.get_eq_getElem, List.get_eq_getElem, ← List.getD_eq_getElem _ 0,
    ← List.getD_eq_getElem _ 0] at hlt
  rw [h0, h1] at hlt
  exact lt_irrefl 5 hlt

/-- C5 counterexample: with markers one row apart the code nudges nothing:
rounding leaves adjacent boundaries equal (boundaries 3 and 4 are both
row 5), so zero-height bins do occur. -/
theorem c5_nudge_counterexample :
    calibrateMarkers degFrame = some (5, 6) ∧
    (bin_pixels 5 6).getD 3 0 = (bin_pixels 5 6).getD 4 0 := by
  refine ⟨by decide, ?_⟩
  have h3 : (bin_pixels 5 6).getD 3 0 = 5 := by
    rw [bin_pixels_getD 5 6 3 (by norm_num)]
    have hx : pyRound (((5 : Nat) : ℚ) + (((6 : Nat) : ℚ) - ((5 : Nat) : ℚ))
        * ((3 : Nat) : ℚ) / 20) = 5 := by
      rw [pyRound_of_nonneg (by push_cast; norm_num)]
      push_cast
      norm_num
    rw [hx]
    rfl
  have h4 : (bin_pixels 5 6).getD 4 0 = 5 := by
    rw [bin_pixels_getD 5 6 4 (by norm_num)]
    have hx : pyRound (((5 : Nat) : ℚ) + (((6 : Nat) : ℚ) - ((5 : Nat) : ℚ))
        * ((4 : Nat) : ℚ) / 20) = 5 := by
      rw [pyRound_of_nonneg (by push_cast; norm_num)]
      push_cast
      norm_num
    rw [hx]
    rfl
  rw [h3, h4]

/-- C5 amended: the code applies no nudging, so when calibration succeeds with
markers one row apart, rounding collapses adjacent boundaries (boundaries 0
and 1 coincide at the top marker row); decode nevertheless stays total: it
still yields 20 bits and a zero-height bin decodes as bit 1, because its
empty row slice sums to 0, below the threshold (the numpy expression divides
an empty slice, so no division is ever evaluated on it). -/
theorem c5_collapse_amended (f : Frame) (c t : Nat)
    (_h : calibrateMarkers f = some (t, t + 1)) :
    (bin_pixels t (t + 1)).getD 0 0 = (bin_pixels t (t + 1)).getD 1 0 ∧
    (bin_bits f c (bin_pixels t (t + 1))).length = 20 ∧
    (bin_bits f c (bin_pixels t (t + 1))).getD 0 2 = 1 := by
  have h0 : (bin_pixels t (t + 1)).getD 0 0 = t := bin_pixels_first t (t + 1)
  have h1 : (bin_pixels t (t + 1)).getD 1 0 = t := by
    rw [bin_pixels_getD t (t + 1) 1 (by norm_num)]
    have he : (t : ℚ) + (((t + 1 : Nat) : ℚ) - ((t : Nat) : ℚ))
        * ((1 : Nat) : ℚ) / 20 = 1 / 20 + (t : ℚ) := by
      push_cast
      ring
    rw [he, pyRound_of_nonneg (by positivity)]
    have he2 : (1 / 20 + (t : ℚ)) + 1 / 2 = 11 / 20 + (t : ℚ) := by ring
    rw [he2, Int.floor_add_nat]
    norm_num
  refine ⟨by rw [h0, h1], by
    rw [bin_bits, List.length_map, List.length_range, bin_pixels_length], ?_⟩
  rw [bin_bits_getD f c _ 0 (by rw [bin_pixels_length]; norm_num)]
  rw [show (0 + 1 : Nat) = 1 from rfl, h0, h1, Nat.sub_self]
  norm_num [BLACK_LUM_MAX]

/-- Witness for C5 (amended) at the concrete degenerate frame. -/
theorem c5_collapse_amended_witness :
    (bin_pixels 5 6).getD 0 0 = (bin_pixels 5 6).getD 1 0 ∧
    (bin_bits degFrame 8 (bin_pixels 5 6)).getD 0 2 = 1 := by
  have h := c5_collapse_amended degFrame 8 5 (by decide)
  exact ⟨h.1, h.2.2⟩

/-- C7: bit i of the decoded pattern is 1 exactly when the average
scan-column luminance over the rows of bin i - the sum over the actual rows
`[boundary i, boundary (i+1))` divided by `boundary (i+1) - boundary i`,
which (first conjunct) is exactly the length of that row range, not a pre-rounded
constant - is strictly below `2 * BLACK_LUM_MAX`, and 0 when it is at or
above; bits are indexed in boundary order, top to bottom. -/
theorem c7_bit_rule (f : Frame) (c : Nat) (bins : List Nat) (i : Nat)
    (hi : i + 1 < bins.length)
    (hlt : bins.getD i 0 < bins.getD (i + 1) 0)
    (hub : bins.getD (i + 1) 0 ≤ f.rows) :
    ((bins.getD (i + 1) 0 : ℚ) - (bins.getD i 0 : ℚ) =
      ((List.range' (bins.getD i 0) (bins.getD (i + 1) 0 - bins.getD i 0)).length : ℚ)) ∧
    ((bin_bits f c bins).getD i 2 = 1 ↔
      ((List.range' (bins.getD i 0) (bins.getD (i + 1) 0 - bins.getD i 0)).map
          (fun r => (lums f c r : ℚ))).sum /
        ((bins.getD (i + 1) 0 : ℚ) - (bins.getD i 0 : ℚ)) < 2 * BLACK_LUM_MAX) ∧
    ((bin_bits f c bins).getD i 2 = 0 ↔
      ¬ ((List.range' (bins.getD i 0) (bins.getD (i + 1) 0 - bins.getD i 0)).map
          (fun r => (lums f c r : ℚ))).sum /
        ((bins.getD (i + 1) 0 : ℚ) - (bins.getD i 0 : ℚ)) < 2 * BLACK_LUM_MAX) := by
  have htp : min (bins.getD i 0) f.rows = bins.getD i 0 :=
    Nat.min_eq_left (le_trans (le_of_lt hlt) hub)
  have hbp : min (bins.getD (i + 1) 0) f.rows = bins.getD (i + 1) 0 :=
    Nat.min_eq_left hub
  have hcast : ((bins.getD (i + 1) 0 - bins.getD i 0 : Nat) : ℚ) =
      (bins.getD (i + 1) 0 : ℚ) - (bins.getD i 0 : ℚ) :=
    Nat.cast_sub (le_of_lt hlt)
  refine ⟨by rw [List.length_range', hcast], ?_, ?_⟩ <;>
    rw [bin_bits_getD f c bins i (by omega), htp, hbp, sum_map_div] <;>
    by_cases hQ : ((List.range' (bins.getD i 0)
        (bins.getD (i + 1) 0 - bins.getD i 0)).map
        (fun r => (lums f c r : ℚ))).sum /
        ((bins.getD (i + 1) 0 : ℚ) - (bins.getD i 0 : ℚ)) < 2 * BLACK_LUM_MAX <;>
    simp [hQ]

/-- Witness for C7: the first bin of the all-dark frame averages luminance 30,
below the threshold, and decodes as bit 1 through the bit rule. -/
theorem c7_bit_rule_witness :
    (bin_bits darkFrame 8 (bin_pixels 0 40)).getD 0 2 = 1 := by
  have h1 : (bin_pixels 0 40).getD 1 0 = 2 := by
    rw [bin_pixels_getD 0 40 1 (by norm_num)]
    have hx : pyRound (((0 : Nat) : ℚ) + (((40 : Nat) : ℚ) - ((0 : Nat) : ℚ))
        * ((1 : Nat) : ℚ) / 20) = 2 := by
      rw [pyRound_of_nonneg (by push_cast; norm_num)]
      push_cast
      norm_num
    rw [hx]
    rfl
  have h0 : (bin_pixels 0 40).getD 0 0 = 0 := bin_pixels_first 0 40
  have hr := c7_bit_rule darkFrame 8 (bin_pixels 0 40) 0
    (by rw [bin_pixels_length]; norm_num)
    (by rw [show (0 + 1 : Nat) = 1 from rfl, h0, h1]; norm_num)
    (by rw [show (0 + 1 : Nat) = 1 from rfl, h1]; norm_num [darkFrame])
  apply hr.2.1.mpr
  rw [show (0 + 1 : Nat) = 1 from rfl, h0, h1]
  norm_num [List.range', lums, darkFrame, BLACK_LUM_MAX]

/-- C8 amended: in the skip variant (g2scanner.py), a frame on which
calibration fails is discarded - no bit pattern is produced - but the scan
counter (and the timestamp log that grows with it) advances at the start of
analyse, before calibration, so the failed frame still increments the
counter by one. -/
theorem c8_skip_amended (n m : Nat) (f : Frame)
    (h : calibrateMarkers f = none) :
    analyse n m f = (n + 1, none) := by
  unfold analyse
  rw [h]

/-- Witness for C8 (amended) on the all-bright frame. -/
theorem c8_skip_amended_witness : analyse 7 0 brightFrame = (8, none) :=
  c8_skip_amended 7 0 brightFrame (by decide)

/-- C8 counterexample: the claim says the counter does not advance for a
MarkersNotFound frame; on the all-bright frame the counter moves from 0 to 1
even though no pattern is produced. -/
theorem c8_advance_counterexample :
    (analyse 0 0 brightFrame).2 = none ∧
    (analyse 0 0 brightFrame).1 = 1 ∧ (1 : Nat) ≠ 0 := by
  refine ⟨?_, ?_, by norm_num⟩ <;> decide

/-! ## threaded2: luminance formulas, calibration and the worker cycle -/

/-- threaded2 _calibrate lines 158-162: calibration luminance is the plain
channel mean `(r + b + g) / 3.0`. -/
def rgb_avg (p : Pixel) : ℚ := ((p.r : ℚ) + (p.b : ℚ) + (p.g : ℚ)) / 3

/-- threaded2 run line 124: the decode comparison weights the averaged
channels as `(r*299 + g*587 + b*114) / 1000.0`. -/
def lum_weighted (p : Pixel) : ℚ :=
  ((p.r : ℚ) * 299 + (p.g : ℚ) * 587 + (p.b : ℚ) * 114) / 1000

/-- BLACK_BRIGHTNESS_MAX of threaded2 (line 165). -/
def BLACK_BRIGHTNESS_MAX : ℚ := 50

/-- threaded2 lines 157-163: the per-row calibration luminance, sampled at
self.scan_column, which run() sets to 8 every cycle. -/
def bin_luminosity (f : Frame) (i : Nat) : ℚ := rgb_avg (f.px i 8)

/-- threaded2 lines 166-169: first dark row from the top. -/
def top_bar_pixel2 (f : Frame) : Option Nat :=
  (List.range f.rows).find? (fun i => bin_luminosity f i < BLACK_BRIGHTNESS_MAX)

/-- threaded2 lines 171-174: first dark row from the bottom. -/
def bottom_bar_pixel2 (f : Frame) : Option Nat :=
  (List.range f.rows).reverse.find?
    (fun i => bin_luminosity f i < BLACK_BRIGHTNESS_MAX)

/-- The Python exceptions the threaded2 worker cycle can raise. -/
inductive PyExc where
  | attrError
  | zeroDivError
  | indexError
deriving Repr, DecidableEq

/-- np.arange(start, stop, step) for a positive step: the values
`start + k * step` for `0 ≤ k < ceil((stop - start) / step)`. -/
def arange (start stop step : ℚ) : List ℚ :=
  if 0 < step then
    (List.range (⌈(stop - start) / step⌉.toNat)).map
      (fun k : Nat => start + step * (k : ℚ))
  else []

/-- The bin step `dp = abs((bottom - top) / 20.0)`: threaded2 line 183 and,
with the same formula, threaded.py line 247 (Python 2 divides the int
difference by the float 20.0, so this is true division). -/
def dp2 (t b : Nat) : ℚ := |((b : ℚ) - (t : ℚ)) / 20|

/-- threaded2 lines 185-188: bin_pixels = arange(top, bottom + dp, dp)
truncated to 21 entries, then each rounded with int(round(.)). -/
def bin_pixels2 (t b : Nat) : List Nat :=
  ((arange (t : ℚ) ((b : ℚ) + dp2 t b) (dp2 t b)).take 21).map
    (fun x => (pyRound x).toNat)

/-- threaded2 _calibrate (lines 148-199). On marker failure (lines 177-181)
it prints, closes the stream, then calls `self.close()` - a method
ImageProcessor does not define - so an AttributeError is raised with the
stream already closed; the `exit()` on line 181 is never reached. With
markers found but equal, `dp` is 0 and np.arange raises on the zero step.
The Bool records whether the stream was closed. -/
def calibrate2 (f : Frame) : Except PyExc (List Nat) × Bool :=
  match top_bar_pixel2 f, bottom_bar_pixel2 f with
  | some t, some b =>
      if t = b then (Except.error PyExc.zeroDivError, false)
      else (Except.ok (bin_pixels2 t b), false)
  | _, _ => (Except.error PyExc.attrError, true)

/-- One iteration of the decode loop of threaded2 (lines 122-126). The source
indexes `self.stream.array[a:b][self.scan_column]`: it slices rows a..b-1
(clipped at ROWS) and then takes element 8 of the slice along the row axis,
i.e. absolute row a+8 - an IndexError when the clipped slice has at most 8
rows. `np.average(.., 0)` then averages that whole row per channel over its
columns, unpacked as b, g, r; over zero columns the averages are NaN (with a
runtime warning), every NaN comparison is false, and the bit is 0. -/
def decode2Bit (f : Frame) (a b : Nat) : Except PyExc Nat :=
  let start := min a f.rows
  let len := min b f.rows - start
  if len ≤ 8 then Except.error PyExc.indexError
  else if f.cols = 0 then Except.ok 0
  else
    let row := start + 8
    let bavg : ℚ :=
      ((List.range f.cols).map (fun c => ((f.px row c).b : ℚ))).sum / (f.cols : ℚ)
    let gavg : ℚ :=
      ((List.range f.cols).map (fun c => ((f.px row c).g : ℚ))).sum / (f.cols : ℚ)
    let ravg : ℚ :=
      ((List.range f.cols).map (fun c => ((f.px row c).r : ℚ))).sum / (f.cols : ℚ)
    Except.ok (if (ravg * 299 + gavg * 587 + bavg * 114) / 1000 < 95 then 1 else 0)

/-- The decode loop, left to right, stopping at the first exception. -/
def decode2Go (f : Frame) (bins : List Nat) : List Nat → Except PyExc (List Nat)
  | [] => Except.ok []
  | i :: is =>
      match decode2Bit f (bins.getD i 0) (bins.getD (i + 1) 0) with
      | Except.error e => Except.error e
      | Except.ok bit =>
          match decode2Go f bins is with
          | Except.error e => Except.error e
          | Except.ok rest => Except.ok (bit :: rest)

/-- threaded2 lines 122-126: `for i in range(len(self.bin_pixels)-1)`. -/
def decode2 (f : Frame) (bins : List Nat) : Except PyExc (List Nat) :=
  decode2Go f bins (List.range (bins.length - 1))

/-- The observable outcome of one threaded2 worker cycle. -/
structure CycleResult where
  streamClosed : Bool
  released : Bool
  eventCleared : Bool
  alive : Bool
deriving Repr, DecidableEq

/-- One processing cycle of ImageProcessor.run in threaded2 once the event has
fired (lines 99-135): the try body does the locked bookkeeping (covered by
the scheduler transition system below), resets the per-cycle fields, runs
_calibrate and the decode loop; the finally block calls _rewind.
_rewind (lines 137-146) runs stream.seek(0); stream.truncate();
event.clear(); pool.append(self) in that order. If _calibrate already closed
the stream, seek(0) itself raises on the closed stream, so event.clear and
pool.append never run and the buffer is never returned; any exception
escaping the finally block then terminates run() and the worker thread. -/
def cycle2 (f : Frame) : CycleResult :=
  match calibrate2 f with
  | (Except.error _, true) => ⟨true, false, false, false⟩
  | (Except.error _, false) => ⟨false, true, true, false⟩
  | (Except.ok bins, closed) =>
      match decode2 f bins with
      | Except.error _ => ⟨closed, true, true, false⟩
      | Except.ok _ => ⟨closed, true, true, true⟩

lemma top_bar_pixel2_none (f : Frame) :
    top_bar_pixel2 f = none ↔
      ∀ i < f.rows, BLACK_BRIGHTNESS_MAX ≤ bin_luminosity f i := by
  unfold top_bar_pixel2
  rw [find?_range_none]
  simp [not_lt]

/-- C9 (code defect): on a frame with no dark row, the threaded2 worker cycle
closes the stream in the failure path of _calibrate and dies on the AttributeError
from the missing self.close; _rewind then fails on the closed stream before
pool.append, so the buffer is never released, the event is never cleared and
the worker thread terminates - against both the guaranteed-cleanup requirement of the
spec and the try/finally intent of the code itself. -/
theorem c9_buffer_lost :
    cycle2 brightFrame =
      ⟨true, false, false, false⟩ := by
  have htop : top_bar_pixel2 brightFrame = none := by
    rw [top_bar_pixel2_none]
    intro i hi
    norm_num [bin_luminosity, rgb_avg, brightFrame, BLACK_BRIGHTNESS_MAX]
  have hc : calibrate2 brightFrame = (Except.error PyExc.attrError, true) := by
    unfold calibrate2
    rw [htop]
  unfold cycle2
  rw [hc]

/-- C10 counterexample: the two luminance computations of threaded2 disagree:
on the pure-blue pixel, calibration measures (0+255+0)/3 = 85 while the
decode weighting gives (0*299 + 0*587 + 255*114)/1000 = 29.07. -/
theorem c10_formula_counterexample :
    rgb_avg ⟨255, 0, 0⟩ ≠ lum_weighted ⟨255, 0, 0⟩ := by
  norm_num [rgb_avg, lum_weighted]

/-- C10 amended: within g2scanner.py calibration and decode do apply the same
per-pixel luminance formula, the unweighted channel sum - but to different
scan columns: calibration samples fixed column 8 while decode samples the
edge-selected column, which equals 8 only when max_edge is 4 or 12. Across
the threaded2 variant the formulas themselves differ (channel mean versus
the 299/587/114 weighting). -/
theorem c10_luminance_amended :
    (∀ f i, temp_lums f i = lums f 8 i) ∧
    (∀ m, scan_column_of m = 8 ↔ m = 4 ∨ m = 12) := by
  constructor
  · intro f i
    rfl
  · intro m
    unfold scan_column_of
    by_cases h : 9 < m <;> simp only [h, if_true, if_false] <;> omega

/-- Witness for C10 (amended) at a concrete frame and row. -/
theorem c10_luminance_amended_witness :
    temp_lums brightFrame 0 = lums brightFrame 8 0 :=
  c10_luminance_amended.1 brightFrame 0

/-! ## g2scanner_threaded.py: the buffer-pool scheduler -/

/-- Shared scheduler state of g2scanner_threaded.py at the granularity of its
single lock: the idle pool (buffer ids, stack order, python list.pop takes
the last), buffers popped by the producer in streams() and being filled,
buffers owned by signaled workers (paired with whether the locked
bookkeeping has already run), the scan counter `taken` and the `done` flag.
`image_times` grows in step with `taken` and is not carried separately. -/
structure SchedState where
  pool : List Nat
  producer : List Nat
  workers : List (Nat × Bool)
  taken : Nat
  done : Bool
deriving Repr, DecidableEq

/-- The lock-granularity transitions of the scheduler for target scan count
K (NUM_SCANS):
  * acquire - streams() lines 190-195: only while `done` is false, pop the
    last pool entry, check and removal inside one lock region;
  * signal - streams() lines 196-198: the capture collaborator has filled
    the popped buffer in place and event.set() hands it to its worker;
  * book - run() lines 113-117, in one lock region: append a timestamp,
    `taken += 1`, and set `done` once `taken` has reached K;
  * release - run() lines 136-143: the finally block resets the stream and
    event and appends the worker back to the pool under the lock.
No transition sets `done` back to false, and none decreases `taken`. -/
inductive Step (K : Nat) : SchedState → SchedState → Prop where
  | acquire (rest : List Nat) (b : Nat) (pr : List Nat)
      (wk : List (Nat × Bool)) (tk : Nat) :
      Step K ⟨rest ++ [b], pr, wk, tk, false⟩ ⟨rest, pr ++ [b], wk, tk, false⟩
  | signal (pl p1 p2 : List Nat) (b : Nat)
      (wk : List (Nat × Bool)) (tk : Nat) (dn : Bool) :
      Step K ⟨pl, p1 ++ b :: p2, wk, tk, dn⟩
        ⟨pl, p1 ++ p2, wk ++ [(b, false)], tk, dn⟩
  | book (pl pr : List Nat) (w1 w2 : List (Nat × Bool)) (b : Nat)
      (tk : Nat) (dn : Bool) :
      Step K ⟨pl, pr, w1 ++ (b, false) :: w2, tk, dn⟩
        ⟨pl, pr, w1 ++ (b, true) :: w2, tk + 1,
          if K ≤ tk + 1 then true else dn⟩
  | release (pl pr : List Nat) (w1 w2 : List (Nat × Bool)) (b : Nat)
      (tk : Nat) (dn : Bool) :
      Step K ⟨pl, pr, w1 ++ (b, true) :: w2, tk, dn⟩
        ⟨pl ++ [b], pr, w1 ++ w2, tk, dn⟩

/-- Reachability through scheduler steps. -/
def Reach (K : Nat) (s s' : SchedState) : Prop :=
  Relation.ReflTransGen (Step K) s s'

/-- Startup state (G2Scanner.__init__ line 181): NUM_THREADS buffers all
idle, counter 0, done False. -/
def initState (n : Nat) : SchedState :=
  ⟨List.range n, [], [], 0, false⟩

/-- The multiset of buffer ids across the three possible owners. -/
def ownerMultiset (s : SchedState) : Multiset Nat :=
  (s.pool : Multiset Nat) + (s.producer : Multiset Nat)
    + ((s.workers.map Prod.fst : List Nat) : Multiset Nat)

lemma step_ownerMultiset {K : Nat} {s s' : SchedState} (h : Step K s s') :
    ownerMultiset s' = ownerMultiset s := by
  cases h <;>
    simp only [ownerMultiset, List.map_append, List.map_cons, List.map_nil,
      ← Multiset.coe_add, ← Multiset.cons_coe, ← Multiset.singleton_add,
      Multiset.coe_singleton] <;>
    abel

lemma reach_ownerMultiset {K n : Nat} {s : SchedState}
    (h : Reach K (initState n) s) :
    ownerMultiset s = (List.range n : Multiset Nat) := by
  induction h with
  | refl => simp [ownerMultiset, initState]
  | tail h1 h2 ih => rw [step_ownerMultiset h2, ih]

lemma step_done_mono {K : Nat} {s s' : SchedState} (h : Step K s s')
    (hd : s.done = true) : s'.done = true := by
  cases h with
  | acquire rest b pr wk tk => simp at hd
  | signal pl p1 p2 b wk tk dn => simpa using hd
  | book pl pr w1 w2 b tk dn =>
      simp only [] at hd ⊢
      split
      · rfl
      · simpa using hd
  | release pl pr w1 w2 b tk dn => simpa using hd

lemma reach_done_iff {K n : Nat} (hK : 1 ≤ K) {s : SchedState}
    (h : Reach K (initState n) s) : s.done = true ↔ K ≤ s.taken := by
  induction h with
  | refl =>
      simp only [initState]
      constructor
      · intro hfalse
        exact absurd hfalse (by simp)
      · intro hle
        exact absurd hle (by omega)
  | tail h1 h2 ih =>
      cases h2 with
      | acquire rest b pr wk tk => simpa using ih
      | signal pl p1 p2 b wk tk dn => simpa using ih
      | book pl pr w1 w2 b tk dn =>
          simp only [] at ih ⊢
          by_cases hk : K ≤ tk + 1
          · simp [hk]
          · rw [if_neg hk]
            rw [ih]
            constructor <;> (intro hx; omega)
      | release pl pr w1 w2 b tk dn => simpa using ih

/-- C1: at lock granularity, every buffer is owned at every reachable instant
by exactly one party - the idle pool, the producer, or one worker. The
multiset of owned buffers is invariant (acquire and release neither lose nor
duplicate), its cardinality equals the buffer count, and it has no duplicate,
so no two owners ever hold the same buffer; acquire removes the popped buffer
inside the same lock region as the emptiness check, so two callers can never
pop the same buffer. -/
theorem c1_buffer_conservation (K n : Nat) (s : SchedState)
    (h : Reach K (initState n) s) :
    ownerMultiset s = (List.range n : Multiset Nat) ∧
    s.pool.length + s.producer.length + s.workers.length = n ∧
    (ownerMultiset s).Nodup := by
  have hm := reach_ownerMultiset h
  refine ⟨hm, ?_, ?_⟩
  · have hcard := congrArg Multiset.card hm
    simp only [ownerMultiset, Multiset.card_add, Multiset.coe_card,
      List.length_map, List.length_range] at hcard
    omega
  · rw [hm]
    exact Multiset.coe_nodup.mpr (List.nodup_range n)

/-- Witness for C1 at a concrete reachable state: one buffer checked out by
the producer, one still idle. -/
theorem c1_buffer_conservation_witness :
    ownerMultiset ⟨[0], [1], [], 0, false⟩ = (List.range 2 : Multiset Nat) ∧
    (SchedState.mk [0] [1] [] 0 false).pool.length
      + (SchedState.mk [0] [1] [] 0 false).producer.length
      + (SchedState.mk [0] [1] [] 0 false).workers.length = 2 ∧
    (ownerMultiset ⟨[0], [1], [], 0, false⟩).Nodup :=
  c1_buffer_conservation 2 2 ⟨[0], [1], [], 0, false⟩
    (Relation.ReflTransGen.single (Step.acquire [0] 1 [] [] 0))

/-- C2 amended: in every reachable state the termination flag holds exactly
when the scan counter has reached the target K, so once the counter reaches
K the flag becomes true and no later step of any worker or the producer
resets it; after completion the counter is therefore at least K - but it can
exceed K, because frames already handed to workers when the flag flips still
increment the counter (see the overshoot counterexample), so "exactly K"
does not hold. -/
theorem c2_termination_amended (K n : Nat) (hK : 1 ≤ K) (s s' : SchedState)
    (h : Reach K (initState n) s) (h' : Reach K s s') :
    (s.done = true ↔ K ≤ s.taken) ∧
    (s.done = true → s'.done = true) ∧
    (s.done = true → K ≤ s'.taken) := by
  have hiff := reach_done_iff hK h
  have hmono : s.done = true → s'.done = true := by
    induction h' with
    | refl => exact id
    | tail h1 h2 ih => exact fun hd => step_done_mono h2 (ih hd)
  refine ⟨hiff, hmono, fun hd => ?_⟩
  have hiff' := reach_done_iff hK (Relation.ReflTransGen.trans h h')
  exact hiff'.mp (hmono hd)

/-- Witness for C2 (amended): a concrete K = 1 session with one worker, at the
state right after the bookkeeping of the worker set the flag, continued to the
state after its release. -/
theorem c2_termination_amended_witness :
    ((SchedState.mk [] [] [(0, true)] 1 true).done = true ↔
      1 ≤ (SchedState.mk [] [] [(0, true)] 1 true).taken) ∧
    ((SchedState.mk [] [] [(0, true)] 1 true).done = true →
      (SchedState.mk [0] [] [] 1 true).done = true) ∧
    ((SchedState.mk [] [] [(0, true)] 1 true).done = true →
      1 ≤ (SchedState.mk [0] [] [] 1 true).taken) :=
  c2_termination_amended 1 1 (by norm_num) _ _
    (Relation.ReflTransGen.head (Step.acquire [] 0 [] [] 0)
      (Relation.ReflTransGen.head (Step.signal [] [] [] 0 [] 0 false)
        (Relation.ReflTransGen.single (Step.book [] [] [] [] 0 0 false))))
    (Relation.ReflTransGen.single (Step.release [] [] [] [] 0 1 true))

/-- C2 counterexample: a complete valid schedule of a K = 1 session with two
buffers in which both frames were already in flight when the counter reached
the target, so the session ends - flag set, no buffer with the producer or a
worker, both buffers back in the idle pool - with the counter at 2, not
exactly K = 1. -/
theorem c2_overshoot_counterexample :
    Reach 1 (initState 2) ⟨[1, 0], [], [], 2, true⟩ ∧
    (SchedState.mk [1, 0] [] [] 2 true).done = true ∧
    (SchedState.mk [1, 0] [] [] 2 true).producer = [] ∧
    (SchedState.mk [1, 0] [] [] 2 true).workers = [] ∧
    (SchedState.mk [1, 0] [] [] 2 true).pool.length = 2 ∧
    (SchedState.mk [1, 0] [] [] 2 true).taken ≠ 1 := by
  refine ⟨?_, rfl, rfl, rfl, rfl, by norm_num⟩
  exact Relation.ReflTransGen.head (Step.acquire [0] 1 [] [] 0)
    (Relation.ReflTransGen.head (Step.signal [0] [] [] 1 [] 0 false)
      (Relation.ReflTransGen.head (Step.acquire [] 0 [] [(1, false)] 0)
        (Relation.ReflTransGen.head (Step.signal [] [] [] 0 [(1, false)] 0 false)
          (Relation.ReflTransGen.head (Step.book [] [] [] [(0, false)] 1 0 false)
            (Relation.ReflTransGen.head (Step.book [] [] [(1, true)] [] 0 1 true)
              (Relation.ReflTransGen.head
                (Step.release [] [] [] [(0, true)] 1 2 true)
                (Relation.ReflTransGen.single
                  (Step.release [1] [] [] [] 0 2 true))))))))

/-! ## threaded.py _calibrate: the appended boundary construction (lines
247-257), and the short-bin failure of the threaded2 decode loop -/

lemma dp2_of_lt (t b : Nat) (h : t < b) :
    dp2 t b = ((b : ℚ) - (t : ℚ)) / 20 := by
  unfold dp2
  have hc : (t : ℚ) < (b : ℚ) := by exact_mod_cast h
  exact abs_of_nonneg (div_nonneg (by linarith) (by norm_num))

lemma dp2_pos (t b : Nat) (h : t < b) : 0 < dp2 t b := by
  rw [dp2_of_lt t b h]
  have hc : (t : ℚ) < (b : ℚ) := by exact_mod_cast h
  exact div_pos (by linarith) (by norm_num)

lemma arange_getElem? (a stop step : ℚ) (hstep : 0 < step) (i : Nat)
    (hi : i < (arange a stop step).length) :
    (arange a stop step)[i]? = some (a + step * (i : ℚ)) := by
  unfold arange at hi ⊢
  rw [if_pos hstep] at hi ⊢
  rw [List.length_map, List.length_range] at hi
  rw [List.getElem?_map, List.getElem?_range hi]
  rfl

lemma arange_threaded_len (t b : Nat) (h : t < b) :
    (arange ((t : ℚ) + dp2 t b) (b : ℚ) (dp2 t b)).length = 19 := by
  have hd0 := dp2_pos t b h
  unfold arange
  rw [if_pos hd0, List.length_map, List.length_range]
  have hc : (t : ℚ) < (b : ℚ) := by exact_mod_cast h
  have hne : (b : ℚ) - (t : ℚ) ≠ 0 := ne_of_gt (by linarith)
  have hval : ((b : ℚ) - ((t : ℚ) + dp2 t b)) / dp2 t b = 19 := by
    rw [dp2_of_lt t b h]
    field_simp
    ring
  rw [hval]
  norm_num
  decide

/-- threaded.py lines 249-254: the global bin_pixels list starts as
[top_bar_pixel] ++ np.arange(top + dp, bottom, dp).tolist(), and every entry
is then replaced by int(round(.)) (rounding leaves the integer head
unchanged). -/
def bin_pixels_threaded_rounded (t b : Nat) : List Nat :=
  (((t : ℚ)) :: arange ((t : ℚ) + dp2 t b) ((b : ℚ)) (dp2 t b)).map
    (fun x => (pyRound x).toNat)

/-- threaded.py lines 256-257: bottom_bar_pixel is appended only when the
last rounded entry differs from it. A zero marker span makes dp 0 and
np.arange raises on the zero step, so no layout is produced there; the
theorems below assume a positive span. -/
def bin_pixels_threaded (t b : Nat) : List Nat :=
  if (bin_pixels_threaded_rounded t b).getLast? = some b
  then bin_pixels_threaded_rounded t b
  else bin_pixels_threaded_rounded t b ++ [b]

lemma bin_pixels_threaded_rounded_length (t b : Nat) (h : t < b) :
    (bin_pixels_threaded_rounded t b).length = 20 := by
  unfold bin_pixels_threaded_rounded
  rw [List.length_map, List.length_cons, arange_threaded_len t b h]

lemma bin_pixels_threaded_rounded_getLast (t b : Nat) (h : t < b) :
    (bin_pixels_threaded_rounded t b).getLast? =
      some ((pyRound ((b : ℚ) - dp2 t b)).toNat) := by
  have hd0 := dp2_pos t b h
  rw [List.getLast?_eq_getElem?, bin_pixels_threaded_rounded_length t b h]
  unfold bin_pixels_threaded_rounded
  rw [List.getElem?_map, List.getElem?_cons_succ]
  rw [arange_getElem? _ _ _ hd0 18 (by rw [arange_threaded_len t b h]; norm_num)]
  have hval : ((t : ℚ) + dp2 t b) + dp2 t b * ((18 : Nat) : ℚ) =
      (b : ℚ) - dp2 t b := by
    rw [dp2_of_lt t b h]
    push_cast
    ring
  rw [hval]
  rfl

lemma pyRound_b_sub (b : Nat) (d : ℚ) (hd0 : 0 < d) (hdb : d ≤ (b : ℚ)) :
    pyRound ((b : ℚ) - d) = (b : ℤ) ↔ d ≤ 1 / 2 := by
  rw [pyRound_of_nonneg (by linarith), Int.floor_eq_iff]
  push_cast
  constructor
  · rintro ⟨h1, h2⟩
    linarith
  · intro hd
    constructor <;> linarith

lemma bin_pixels_threaded_length (t b : Nat) (h : t < b) :
    (b - t ≤ 10 → (bin_pixels_threaded t b).length = 20) ∧
    (10 < b - t → (bin_pixels_threaded t b).length = 21) := by
  have hd0 := dp2_pos t b h
  have hc : (t : ℚ) < (b : ℚ) := by exact_mod_cast h
  have hdb : dp2 t b ≤ (b : ℚ) := by
    rw [dp2_of_lt t b h]
    have hb0 : (0 : ℚ) ≤ (t : ℚ) := by positivity
    linarith
  have hcastsub : ((b - t : Nat) : ℚ) = (b : ℚ) - (t : ℚ) :=
    Nat.cast_sub (le_of_lt h)
  have hspan : dp2 t b ≤ 1 / 2 ↔ b - t ≤ 10 := by
    rw [dp2_of_lt t b h, ← hcastsub]
    constructor
    · intro hle
      have : ((b - t : Nat) : ℚ) ≤ 10 := by linarith
      exact_mod_cast this
    · intro hle
      have : ((b - t : Nat) : ℚ) ≤ 10 := by exact_mod_cast hle
      linarith
  have hnn : (0 : ℤ) ≤ pyRound ((b : ℚ) - dp2 t b) := by
    have h0 : pyRound ((0 : Nat) : ℚ) ≤ pyRound ((b : ℚ) - dp2 t b) := by
      apply pyRound_mono (by positivity)
      push_cast
      linarith
    rw [pyRound_natCast] at h0
    simpa using h0
  have htonat : ((pyRound ((b : ℚ) - dp2 t b)).toNat = b) ↔
      pyRound ((b : ℚ) - dp2 t b) = (b : ℤ) := by omega
  have hiff := pyRound_b_sub b (dp2 t b) hd0 hdb
  constructor
  · intro hle
    have hx : (pyRound ((b : ℚ) - dp2 t b)).toNat = b :=
      htonat.mpr (hiff.mpr (hspan.mpr hle))
    unfold bin_pixels_threaded
    rw [bin_pixels_threaded_rounded_getLast t b h, hx, if_pos rfl]
    exact bin_pixels_threaded_rounded_length t b h
  · intro hgt
    have hx : (pyRound ((b : ℚ) - dp2 t b)).toNat ≠ b := by
      intro hcon
      have := hspan.mp (hiff.mp (htonat.mp hcon))
      omega
    unfold bin_pixels_threaded
    rw [bin_pixels_threaded_rounded_getLast t b h, if_neg (by simpa using hx)]
    rw [List.length_append, bin_pixels_threaded_rounded_length t b h]
    rfl

/-- C4 amended: for every successful calibration, the linspace layout of
g2scanner.py has exactly 21 boundary rows, the first equal to the top marker
row, the last equal to the bottom marker row, and all boundaries within the
marker span and hence within [0, rowCount); after rounding the boundaries
are nondecreasing but not necessarily strictly increasing, since no nudge
exists (see the counterexample). The _calibrate of g2scanner_threaded.py
builds its list differently - [top] ++ arange(top+dp, bottom, dp) rounded,
with bottom appended only when the last entry differs - and yields 21
boundaries only when the marker span exceeds 10 rows: for spans of 1 to 10
rows the last arange entry already rounds to the bottom marker, nothing is
appended, and the layout has just 20 boundaries (a zero span raises on the
zero arange step and produces no layout). -/
theorem c4_layout_amended (f : Frame) (t b : Nat)
    (h : calibrateMarkers f = some (t, b)) :
    ((bin_pixels t b).length = 21 ∧
     (bin_pixels t b).getD 0 0 = t ∧
     (bin_pixels t b).getD 20 0 = b ∧
     List.Chain' (fun a c : Nat => a ≤ c) (bin_pixels t b) ∧
     (∀ x ∈ bin_pixels t b, t ≤ x ∧ x ≤ b) ∧
     (∀ x ∈ bin_pixels t b, x < f.rows)) ∧
    (t < b →
      (b - t ≤ 10 → (bin_pixels_threaded t b).length = 20) ∧
      (10 < b - t → (bin_pixels_threaded t b).length = 21)) := by
  obtain ⟨htb, hbr⟩ := markers_le f t b h
  refine ⟨⟨bin_pixels_length t b, bin_pixels_first t b, bin_pixels_last t b,
    bin_pixels_chain t b htb, bin_pixels_mem_bounds t b htb, fun x hx =>
      Nat.lt_of_le_of_lt (bin_pixels_mem_bounds t b htb x hx).2 hbr⟩,
    fun hlt => bin_pixels_threaded_length t b hlt⟩

/-- Witness for C4 (amended) at the markers-one-apart frame: endpoints of the
linspace layout, and the threaded-variant layout of the same span stopping at
20 boundaries. -/
theorem c4_layout_amended_witness :
    (bin_pixels 5 6).getD 0 0 = 5 ∧ (bin_pixels 5 6).getD 20 0 = 6 ∧
    (bin_pixels_threaded 5 6).length = 20 := by
  have h := c4_layout_amended degFrame 5 6 (by decide)
  exact ⟨h.1.2.1, h.1.2.2.1, (h.2 (by norm_num)).1 (by norm_num)⟩

lemma arange_deg_len :
    (arange ((5 : Nat) : ℚ) (((6 : Nat) : ℚ) + dp2 5 6) (dp2 5 6)).length
      = 21 := by
  have hd0 : 0 < dp2 5 6 := dp2_pos 5 6 (by norm_num)
  unfold arange
  rw [if_pos hd0, List.length_map, List.length_range]
  rw [dp2_of_lt 5 6 (by norm_num)]
  push_cast
  norm_num
  decide

lemma bin_pixels2_deg_len : (bin_pixels2 5 6).length = 21 := by
  unfold bin_pixels2
  rw [List.length_map, List.length_take, arange_deg_len]
  norm_num

lemma bin_pixels2_deg_getD (i : Nat) (hi : i < 21) :
    (bin_pixels2 5 6).getD i 0 =
      (pyRound (((5 : Nat) : ℚ) + dp2 5 6 * (i : ℚ))).toNat := by
  have hd0 : 0 < dp2 5 6 := dp2_pos 5 6 (by norm_num)
  unfold bin_pixels2
  rw [List.getD_eq_getElem?_getD, List.getElem?_map, List.getElem?_take,
    if_pos hi]
  rw [arange_getElem? _ _ _ hd0 i (by rw [arange_deg_len]; omega)]
  rfl

lemma bin_pixels2_deg_getD0 : (bin_pixels2 5 6).getD 0 0 = 5 := by
  rw [bin_pixels2_deg_getD 0 (by norm_num)]
  have hval : ((5 : Nat) : ℚ) + dp2 5 6 * ((0 : Nat) : ℚ) = 5 := by
    push_cast
    ring
  rw [hval, pyRound_of_nonneg (by norm_num)]
  norm_num
  decide

lemma bin_pixels2_deg_getD1 : (bin_pixels2 5 6).getD 1 0 = 5 := by
  rw [bin_pixels2_deg_getD 1 (by norm_num)]
  have hval : ((5 : Nat) : ℚ) + dp2 5 6 * ((1 : Nat) : ℚ) = 101 / 20 := by
    rw [dp2_of_lt 5 6 (by norm_num)]
    push_cast
    norm_num
  rw [hval, pyRound_of_nonneg (by norm_num)]
  norm_num
  decide

/-- The threaded2 decode loop fails whenever its first bin slice has at most
8 rows: `array[a:b][8]` then indexes past the slice. -/
lemma decode2_indexError (g : Frame) (bins : List Nat)
    (h2 : 2 ≤ bins.length)
    (h8 : min (bins.getD 1 0) g.rows - min (bins.getD 0 0) g.rows ≤ 8) :
    decode2 g bins = Except.error PyExc.indexError := by
  unfold decode2
  obtain ⟨k, hk⟩ : ∃ k, bins.length - 1 = k + 1 := ⟨bins.length - 2, by omega⟩
  rw [hk, List.range_succ_eq_map]
  have hbit : decode2Bit g (bins.getD 0 0) (bins.getD (0 + 1) 0) =
      Except.error PyExc.indexError := by
    simp only [decode2Bit]
    rw [show (0 + 1 : Nat) = 1 from rfl, if_pos h8]
  simp only [decode2Go, hbit]

/-- C3 counterexample: on the frame whose markers are rows 5 and 6, threaded2
calibration succeeds and hands decode a 21-boundary layout, but the decode
loop aborts with IndexError on its very first bin - the slice
array[5:5][8] is empty, far short of the 9 rows the index needs - so no
20-bit pattern is produced for this frame and layout. -/
theorem c3_partial_counterexample :
    calibrate2 degFrame = (Except.ok (bin_pixels2 5 6), false) ∧
    (bin_pixels2 5 6).length = 21 ∧
    decode2 degFrame (bin_pixels2 5 6) = Except.error PyExc.indexError := by
  refine ⟨?_, bin_pixels2_deg_len, ?_⟩
  · have htop : top_bar_pixel2 degFrame = some 5 := by
      unfold top_bar_pixel2
      rw [find?_range_some]
      refine ⟨by norm_num [degFrame],
        by norm_num [bin_luminosity, rgb_avg, degFrame, BLACK_BRIGHTNESS_MAX],
        ?_⟩
      intro k hk
      interval_cases k <;>
        norm_num [bin_luminosity, rgb_avg, degFrame, BLACK_BRIGHTNESS_MAX]
    have hbot : bottom_bar_pixel2 degFrame = some 6 := by
      unfold bottom_bar_pixel2
      rw [find?_range_reverse_some]
      refine ⟨by norm_num [degFrame],
        by norm_num [bin_luminosity, rgb_avg, degFrame, BLACK_BRIGHTNESS_MAX],
        ?_⟩
      intro k hk1 hk2
      have hk2' : k < 8 := by simpa [degFrame] using hk2
      interval_cases k
      norm_num [bin_luminosity, rgb_avg, degFrame, BLACK_BRIGHTNESS_MAX]
    unfold calibrate2
    rw [htop, hbot]
    rfl
  · exact decode2_indexError degFrame (bin_pixels2 5 6)
      (by rw [bin_pixels2_deg_len]; norm_num)
      (by rw [bin_pixels2_deg_getD0, bin_pixels2_deg_getD1]; norm_num [degFrame])

/-- C3 amended: in g2scanner.py, decode over a calibration layout always
returns exactly 20 bits, one per boundary pair, and the pattern is built in
full before any use, so no partial result exists; the threaded2 decode loop,
however, indexes row 8 of each bin slice and raises IndexError as soon as a
slice has at most 8 rows - in particular any layout whose first bin spans at
most 8 rows yields no bits at all - so the 20-bit guarantee does not hold
on that variant. -/
theorem c3_decode_amended (f : Frame) (c t b : Nat)
    (_h : calibrateMarkers f = some (t, b)) :
    (bin_bits f c (bin_pixels t b)).length = 20 ∧
    (∀ g : Frame, ∀ bins : List Nat, 2 ≤ bins.length →
      min (bins.getD 1 0) g.rows - min (bins.getD 0 0) g.rows ≤ 8 →
      decode2 g bins = Except.error PyExc.indexError) := by
  refine ⟨by rw [bin_bits, List.length_map, List.length_range,
    bin_pixels_length], ?_⟩
  intro g bins h2 h8
  exact decode2_indexError g bins h2 h8

/-- Witness for C3 (amended): the all-dark frame decodes to 20 bits in
g2scanner.py, while the degenerate layout aborts the threaded2 loop. -/
theorem c3_decode_amended_witness :
    (bin_bits darkFrame 8 (bin_pixels 0 40)).length = 20 ∧
    decode2 degFrame (bin_pixels2 5 6) = Except.error PyExc.indexError := by
  have h := c3_decode_amended darkFrame 8 0 40 (by decide)
  exact ⟨h.1, h.2 degFrame (bin_pixels2 5 6)
    (by rw [bin_pixels2_deg_len]; norm_num)
    (by rw [bin_pixels2_deg_getD0, bin_pixels2_deg_getD1]; norm_num [degFrame])⟩
